import Mathlib

/-!
Verification of the lab-report extraction pipeline implemented in
`src/main.py` (FastAPI "Lab Test Analyzer API").  The development shallowly
embeds the Python source: the reference-range evaluator
`is_value_out_of_range`, the regex catalog `LAB_TEST_PATTERNS` together with
the `re.search`-based extractor `extract_lab_tests`, the OpenCV preprocessing
recipe `preprocess_image`, and the OCR pipeline `extract_text_from_image` /
`get_lab_tests` (the external decoder and OCR engine are modelled as
function parameters that may raise).  Python `float` is treated at two
levels: `pyFloat` parses a literal to its exact decimal value (`Dec`), and
`flB64` applies the correctly-rounded IEEE-754 binary64 conversion that
`float` actually performs; `is_value_out_of_range` compares the exact
values (adequate wherever the literals at hand round monotonically, as with
every catalog constant), while `is_value_out_of_range_b64` compares the
rounded values and is the bit-faithful reading, used where the two diverge
(near-ties beyond double precision).
-/

namespace LabAnalyzer

/-! ## Python primitives: `str.split(sep)` and `float` on decimal literals -/

/-- Python `s.split(sep)` for a single-character separator: splits at every
occurrence of `sep`; `"".split(sep) = [""]`. -/
def splitChar (sep : Char) : List Char → List (List Char)
  | [] => [[]]
  | c :: cs =>
    if c = sep then [] :: splitChar sep cs
    else
      match splitChar sep cs with
      | [] => [[c]]
      | p :: ps => (c :: p) :: ps

/-- Numeric value of a list of decimal digit characters (most significant
first). -/
def digitsVal (ds : List Char) : ℕ :=
  ds.foldl (fun n c => 10 * n + (c.toNat - 48)) 0

/-- An exact decimal number `(-1)^neg * m / 10^e`: the value denoted by a
decimal literal accepted by Python `float`, *before* the rounding to IEEE-754
binary64 that `float` performs.  The rounding itself is modelled by `flB64`
below; the exact reading is used for the claims where the literals involved
round without changing any comparison (which a reviewer can check literal by
literal), the rounded reading where the distinction is observable. -/
structure Dec where
  neg : Bool
  m : ℕ
  e : ℕ
  deriving DecidableEq, Repr

/-- The rational value denoted by a `Dec`. -/
def Dec.toQ (d : Dec) : ℚ :=
  (if d.neg then -(d.m : ℚ) else (d.m : ℚ)) / 10 ^ d.e

/-- Exact strict comparison of two decimal numbers.  The program compares
the binary64 roundings instead (see `B64.blt` and `flB64`); the two
comparisons agree whenever the rounding `flB64` is strictly monotone on the
literals at hand (in particular on all catalog constants and short captured
values), and diverge on near-ties beyond double precision — see
`C1_counterexample`. -/
def Dec.blt (x y : Dec) : Bool :=
  match x.neg, y.neg with
  | false, false => decide (x.m * 10 ^ y.e < y.m * 10 ^ x.e)
  | true,  true  => decide (y.m * 10 ^ x.e < x.m * 10 ^ y.e)
  | true,  false => decide (0 < x.m ∨ 0 < y.m)
  | false, true  => false

/-- Helper for `parseUnsigned`: `ds` is the leading run of digits, the
second argument what remains after it (either nothing, or a dot followed by
the fractional digits). -/
def parseRest (ds : List Char) : List Char → Option Dec
  | [] => if ds.isEmpty then none else some ⟨false, digitsVal ds, 0⟩
  | c :: fs =>
    if c = '.' ∧ fs.all Char.isDigit ∧ ¬(ds.isEmpty ∧ fs.isEmpty)
    then some ⟨false, digitsVal ds * 10 ^ fs.length + digitsVal fs, fs.length⟩
    else none

/-- Parse an unsigned decimal literal (`digits`, `digits.digits`,
`digits.`, `.digits`), exactly the unsigned core of Python `float`;
any other string yields `none` (Python raises `ValueError`). -/
def parseUnsigned (cs : List Char) : Option Dec :=
  parseRest (cs.takeWhile Char.isDigit) (cs.dropWhile Char.isDigit)

/-- Python `float` on a list of characters: an optional sign followed by an
unsigned decimal literal.  (Forms never produced by this program — exponents,
`inf`/`nan`, padding whitespace, digit underscores — are outside the model
and map to `none`.) -/
def pyFloatChars (cs : List Char) : Option Dec :=
  match cs with
  | [] => parseUnsigned []
  | a :: rest =>
    if a = '+' then parseUnsigned rest
    else if a = '-' then (parseUnsigned rest).map (fun d => { d with neg := true })
    else parseUnsigned (a :: rest)

/-- Python `float` on a string, read exactly: the result is the exact
decimal value of the literal; `float` itself additionally rounds this value
to IEEE-754 binary64 (`flB64 ∘ pyFloat`, packaged as `flFloat` below).  The
*acceptance* behaviour (which strings parse) is the same for both readings. -/
def pyFloat (s : String) : Option Dec :=
  pyFloatChars s.data

/-! ### IEEE-754 binary64 rounding

Python's `float` is a correctly-rounded decimal-to-binary64 conversion
(round to nearest, ties to even; overflow to infinity).  `flB64` models it
exactly on the decimal literals `pyFloat` accepts: the rounded value of a
nonzero literal is computed as the correctly-rounded 53-bit significand
times a power of two, with the IEEE subnormal and overflow ranges handled
at the grid boundaries. -/

/-- Number of binary digits of `n` (`0` for `0`); the first argument is
fuel, always sufficient when called through `bitlen`. -/
def bitlenAux : ℕ → ℕ → ℕ
  | 0, _ => 0
  | fuel + 1, n => if n = 0 then 0 else bitlenAux fuel (n / 2) + 1

/-- Number of binary digits of `n` (`0` for `0`). -/
def bitlen (n : ℕ) : ℕ := bitlenAux (n + 1) n

/-- Round the nonnegative rational `num / den` (`den > 0`) to the nearest
integer, ties to even. -/
def rnearInt (num den : ℕ) : ℕ :=
  let q := num / den
  let r := num % den
  if den < 2 * r then q + 1
  else if 2 * r = den then (if q % 2 = 1 then q + 1 else q)
  else q

/-- A binary64 value produced by parsing a decimal literal: a finite dyadic
`(-1)^neg * m * 2^t`, or an infinity (overflowing literals; `float` parses
them to `inf` rather than raising). -/
inductive B64 where
  | fin (neg : Bool) (m : ℕ) (t : ℤ)
  | inf (neg : Bool)
  deriving DecidableEq, Repr

/-- Strict comparison of nonnegative dyadics `m₁ * 2^t₁ < m₂ * 2^t₂`,
by aligning the exponents. -/
def dyLt (m₁ : ℕ) (t₁ : ℤ) (m₂ : ℕ) (t₂ : ℤ) : Bool :=
  decide (m₁ * 2 ^ (t₁ - t₂).toNat < m₂ * 2 ^ (t₂ - t₁).toNat)

/-- IEEE `<` on parsed binary64 values (no NaN can arise from a parsed
decimal literal). -/
def B64.blt : B64 → B64 → Bool
  | .fin n₁ m₁ t₁, .fin n₂ m₂ t₂ =>
    match n₁, n₂ with
    | false, false => dyLt m₁ t₁ m₂ t₂
    | true,  true  => dyLt m₂ t₂ m₁ t₁
    | true,  false => decide (0 < m₁ ∨ 0 < m₂)
    | false, true  => false
  | .fin _ _ _, .inf s => !s
  | .inf s, .fin _ _ _ => s
  | .inf s₁, .inf s₂ => s₁ && !s₂

/-- The rational value of a finite binary64 datum. -/
def B64.toQfin (neg : Bool) (m : ℕ) (t : ℤ) : ℚ :=
  (if neg then -(m : ℚ) else (m : ℚ)) * 2 ^ t

/-- Correctly-rounded conversion of the positive rational `n / 10^e`
(`n > 0`) to binary64: choose the scale `2^t` putting the significand in
`[2^52, 2^53)`, round the exact quotient to the nearest integer with ties
to even, and apply the IEEE overflow (to `inf` at `2^1024`) and subnormal
(fixed scale `2^-1074` below `2^-1022`) regimes. -/
def flPos (n e : ℕ) : B64 :=
  let B := 10 ^ e
  let q0 := n * 2 ^ (54 + bitlen B) / B
  let t : ℤ := (bitlen q0 : ℤ) - 53 - (54 + (bitlen B : ℤ))
  let q1 := rnearInt (n * 2 ^ (-t).toNat) (B * 2 ^ t.toNat)
  let qt : ℕ × ℤ := if q1 = 2 ^ 53 then (2 ^ 52, t + 1) else (q1, t)
  if 1023 < qt.2 + 52 then .inf false
  else if qt.2 + 52 < -1022 then .fin false (rnearInt (n * 2 ^ 1074) B) (-1074)
  else .fin false qt.1 qt.2

/-- The binary64 rounding `float` applies to a parsed decimal literal. -/
def flB64 (d : Dec) : B64 :=
  if d.m = 0 then .fin d.neg 0 0
  else
    match flPos d.m d.e with
    | .fin _ m t => .fin d.neg m t
    | .inf _ => .inf d.neg

/-- Python `float` on a string with its binary64 rounding made explicit:
the value `float(s)` actually yields. -/
def flFloat (s : String) : Option B64 :=
  (pyFloat s).map flB64

/-! ## `is_value_out_of_range` (src/main.py lines 57-70) -/

/-- The range-parsing half of `is_value_out_of_range`:
`min_val, max_val = map(float, reference_range.split('-'))`.
`none` models the `ValueError` raised when the split does not produce
exactly two parts or a part is not a number. -/
def rangeBounds (reference_range : String) : Option (Dec × Dec) :=
  match splitChar '-' reference_range.data with
  | [a, b] =>
    match pyFloatChars a, pyFloatChars b with
    | some mn, some mx => some (mn, mx)
    | _, _ => none
  | _ => none

/-- `is_value_out_of_range(value, reference_range)`: true iff the parsed
value lies strictly outside `[min_val, max_val]`; if any conversion fails
(the `except (ValueError, AttributeError)` branch) the result is `false`.
The Lean function is total: the `try/except` of the source means the Python
function never raises either. -/
def is_value_out_of_range (value reference_range : String) : Bool :=
  match rangeBounds reference_range, pyFloat value with
  | some (mn, mx), some v => v.blt mn || mx.blt v
  | _, _ => false

/-- The range-parsing half of `is_value_out_of_range` with `float`'s
binary64 rounding made explicit (same split and acceptance as
`rangeBounds`; only the numeric values differ by rounding). -/
def rangeBounds_b64 (reference_range : String) : Option (B64 × B64) :=
  match splitChar '-' reference_range.data with
  | [a, b] =>
    match (pyFloatChars a).map flB64, (pyFloatChars b).map flB64 with
    | some mn, some mx => some (mn, mx)
    | _, _ => none
  | _ => none

/-- `is_value_out_of_range(value, reference_range)` read bit-faithfully:
identical to `is_value_out_of_range` except that the three parsed numbers
are the binary64 roundings `float` actually produces, compared with IEEE
`<`.  This is the reading under which near-ties beyond double precision
behave as the program does (see `C1_counterexample`). -/
def is_value_out_of_range_b64 (value reference_range : String) : Bool :=
  match rangeBounds_b64 reference_range, flFloat value with
  | some (mn, mx), some v => B64.blt v mn || B64.blt mx v
  | _, _ => false

/-! ## The regex fragment used by `LAB_TEST_PATTERNS`

Every pattern in the catalog is built from case-insensitive literals, the
character classes `\d`, `\s`, `[:=]`, `\.`, `\(`, `\)` under `?`/`*`/`+`
(with `x+` written as `x x*`), the value group `(\d+\.?\d*)` (group 1 of
every pattern) and a unit group that is an alternation of literals (group 2).
The matcher below implements Python `re`'s backtracking semantics for this
fragment: alternatives are tried left to right, quantifiers are greedy and
give back on failure, and `re.search` tries successive start positions and
returns the first (leftmost) one at which the pattern matches. -/

/-- The character classes occurring in the catalog's regexes (ASCII reading
of Python's `\d` and `\s`). -/
inductive CharClass where
  | digit | space | colonEq | dot | lparen | rparen
  deriving DecidableEq, Repr

/-- Membership in a character class. -/
def CharClass.mem : CharClass → Char → Bool
  | .digit, c => c.isDigit
  | .space, c => c = ' ' || c = '\t' || c = '\n' || c = '\r' || c.toNat = 12 || c.toNat = 11
  | .colonEq, c => c = ':' || c = '='
  | .dot, c => c = '.'
  | .lparen, c => c = '('
  | .rparen, c => c = ')'

/-- One piece of a catalog pattern.  `grpValue` stands for the value group
`(\d+\.?\d*)` (group 1 of every catalog pattern); `grpUnit alts` stands for
group 2, an alternation of literal unit strings. -/
inductive Piece where
  | one (c : CharClass)
  | opt (c : CharClass)
  | star (c : CharClass)
  | litCI (l : String)
  | grpValue
  | grpUnit (alts : List String)
  deriving DecidableEq, Repr

/-- The capture state of a match: groups 1 and 2 (`none` = not captured). -/
structure Caps where
  g1 : Option (List Char)
  g2 : Option (List Char)
  deriving DecidableEq, Repr

/-- Record a capture for group 1. -/
def setG1 (w : List Char) (caps : Caps) : Caps := { caps with g1 := some w }

/-- Record a capture for group 2. -/
def setG2 (w : List Char) (caps : Caps) : Caps := { caps with g2 := some w }

/-- First success of `f` over a list of candidates (the backtracking
engine's alternative order). -/
def firstSome : List α → (α → Option β) → Option β
  | [], _ => none
  | x :: xs, f =>
    match f x with
    | some r => some r
    | none => firstSome xs f

/-- The suffixes reachable by letting `c*` consume a prefix of `s`, in greedy
order: consume as many class characters as possible first, then give back
one at a time. -/
def clsSuffixes (c : CharClass) : List Char → List (List Char)
  | [] => [[]]
  | a :: s => if c.mem a then clsSuffixes c s ++ [a :: s] else [a :: s]

/-- The suffixes reachable by `c?`, in greedy order (consume if possible,
then the empty alternative). -/
def optCands (c : CharClass) (s : List Char) : List (List Char) :=
  match s with
  | [] => [[]]
  | a :: t => if c.mem a then [t, a :: t] else [a :: t]

/-- Strip a literal case-insensitively (`re.IGNORECASE`):
returns the remaining suffix. -/
def stripCI : List Char → List Char → Option (List Char)
  | [], s => some s
  | _ :: _, [] => none
  | a :: l, b :: s => if a.toLower = b.toLower then stripCI l s else none

/-- Backtracking matcher for a list of pieces, in continuation-passing style:
`k` receives the remaining suffix and the captures accumulated so far.
Alternatives are explored in Python `re`'s preference order. -/
def matchList : List Piece → List Char → Caps → (List Char → Caps → Option Caps) → Option Caps
  | [], s, caps, k => k s caps
  | .one c :: ps, s, caps, k =>
    match s with
    | [] => none
    | a :: s₁ => if c.mem a then matchList ps s₁ caps k else none
  | .opt c :: ps, s, caps, k =>
    firstSome (optCands c s) (fun s₁ => matchList ps s₁ caps k)
  | .star c :: ps, s, caps, k =>
    firstSome (clsSuffixes c s) (fun s₁ => matchList ps s₁ caps k)
  | .litCI l :: ps, s, caps, k =>
    match stripCI l.data s with
    | some s₁ => matchList ps s₁ caps k
    | none => none
  | .grpValue :: ps, s, caps, k =>
    match s with
    | [] => none
    | a :: s₁ =>
      if CharClass.digit.mem a then
        firstSome (clsSuffixes .digit s₁) (fun s₂ =>
          firstSome (optCands .dot s₂) (fun s₃ =>
            firstSome (clsSuffixes .digit s₃) (fun s₄ =>
              matchList ps s₄
                (setG1 ((a :: s₁).take ((a :: s₁).length - s₄.length)) caps) k)))
      else none
  | .grpUnit alts :: ps, s, caps, k =>
    firstSome alts (fun l =>
      match stripCI l.data s with
      | some s₁ => matchList ps s₁ (setG2 (s.take (s.length - s₁.length)) caps) k
      | none => none)

/-- Try to match the whole pattern anchored at the start of `s`; on success
return the captures (the rest of the input may remain). -/
def matchHere (ps : List Piece) (s : List Char) : Option Caps :=
  matchList ps s ⟨none, none⟩ (fun _ caps => some caps)

/-- `re.search`: try the pattern at position 0, 1, 2, … and return the
captures of the first position that matches. -/
def searchFrom (ps : List Piece) : List Char → Option Caps
  | [] => matchHere ps []
  | a :: t =>
    match matchHere ps (a :: t) with
    | some caps => some caps
    | none => searchFrom ps t

/-- `re.search(pattern, text, re.IGNORECASE)` restricted to the captures. -/
def re_search (ps : List Piece) (text : String) : Option Caps :=
  searchFrom ps text.data

/-- The shape `\d+\.?\d*`: a nonempty run of digits, optionally followed by
a dot and further digits. -/
def DecShape (w : List Char) : Prop :=
  ∃ ds rest, w = ds ++ rest ∧ ds ≠ [] ∧ ds.all Char.isDigit = true ∧
    (rest = [] ∨ ∃ fs, rest = '.' :: fs ∧ fs.all Char.isDigit = true)

/-- Group 1 has been captured and its text has the shape `\d+\.?\d*`. -/
def G1Set (caps : Caps) : Prop := ∃ w, caps.g1 = some w ∧ DecShape w

/-! ## The catalog `LAB_TEST_PATTERNS` (src/main.py lines 24-55) -/

/-- One catalog entry (a Python dict with keys `name`, `pattern`, `unit`,
`reference_range`; `Option` models `dict.get` with its default). -/
structure TestDef where
  name : String
  pattern : List Piece
  unit : Option String
  reference_range : Option String

/-- `HB\s+ESTIMATION\s*[:=]?\s*(\d+\.?\d*)\s*(g/dL)` -/
def HB_pat : List Piece :=
  [.litCI "HB", .one .space, .star .space, .litCI "ESTIMATION",
   .star .space, .opt .colonEq, .star .space, .grpValue, .star .space,
   .grpUnit ["g/dL"]]

/-- `PCV\s*\(?PACKED\s+CELL\s+VOLUME\)?\s*[:=]?\s*(\d+\.?\d*)\s*(%)` -/
def PCV_pat : List Piece :=
  [.litCI "PCV", .star .space, .opt .lparen, .litCI "PACKED",
   .one .space, .star .space, .litCI "CELL", .one .space, .star .space,
   .litCI "VOLUME", .opt .rparen, .star .space, .opt .colonEq, .star .space,
   .grpValue, .star .space, .grpUnit ["%"]]

/-- `RBC\s+COUNT\s*[:=]?\s*(\d+\.?\d*)\s*(million/cmm)` -/
def RBC_pat : List Piece :=
  [.litCI "RBC", .one .space, .star .space, .litCI "COUNT",
   .star .space, .opt .colonEq, .star .space, .grpValue, .star .space,
   .grpUnit ["million/cmm"]]

/-- `WBC\s+COUNT\s*[:=]?\s*(\d+\.?\d*)\s*(cells/cmm|/cmm)` -/
def WBC_pat : List Piece :=
  [.litCI "WBC", .one .space, .star .space, .litCI "COUNT",
   .star .space, .opt .colonEq, .star .space, .grpValue, .star .space,
   .grpUnit ["cells/cmm", "/cmm"]]

/-- `PLATELET\s+COUNT\s*[:=]?\s*(\d+\.?\d*)\s*(lakhs/cmm|/cmm)` -/
def PLATELET_pat : List Piece :=
  [.litCI "PLATELET", .one .space, .star .space, .litCI "COUNT",
   .star .space, .opt .colonEq, .star .space, .grpValue, .star .space,
   .grpUnit ["lakhs/cmm", "/cmm"]]

/-- The ordered catalog of test definitions. -/
def LAB_TEST_PATTERNS : List TestDef :=
  [{ name := "HB ESTIMATION", pattern := HB_pat,
     unit := some "g/dL", reference_range := some "12.0-15.0" },
   { name := "PCV (PACKED CELL VOLUME)", pattern := PCV_pat,
     unit := some "%", reference_range := some "36.0-46.0" },
   { name := "RBC COUNT", pattern := RBC_pat,
     unit := some "million/cmm", reference_range := some "4.5-5.5" },
   { name := "WBC COUNT", pattern := WBC_pat,
     unit := some "/cmm", reference_range := some "4000-11000" },
   { name := "PLATELET COUNT", pattern := PLATELET_pat,
     unit := some "lakhs/cmm", reference_range := some "1.5-4.5" }]

/-! ## `extract_lab_tests` (src/main.py lines 107-129) -/

/-- One extracted record (`results.append({...})` in the source). -/
structure LabResult where
  test_name : String
  test_value : String
  bio_reference_range : String
  test_unit : String
  lab_test_out_of_range : Bool
  deriving DecidableEq, Repr

/-- The loop body of `extract_lab_tests` for one catalog entry: search the
pattern in the text; on a match build the record (`value = match.group(1)`;
`unit = test.get("unit", match.group(2) if len(match.groups()) > 1 else "")`;
`reference_range = test.get("reference_range", "")`). -/
def mkResult (text : String) (test : TestDef) : Option LabResult :=
  match re_search test.pattern text with
  | some m =>
    let value := String.mk (m.g1.getD [])
    let unit := test.unit.getD (String.mk (m.g2.getD []))
    let reference_range := test.reference_range.getD ""
    some { test_name := test.name, test_value := value,
           bio_reference_range := reference_range, test_unit := unit,
           lab_test_out_of_range := is_value_out_of_range value reference_range }
  | none => none

/-- `extract_lab_tests(text)`: one record per catalog entry whose pattern is
found in the text, in catalog order. -/
def extract_lab_tests (text : String) : List LabResult :=
  LAB_TEST_PATTERNS.filterMap (mkResult text)

/-! ## `preprocess_image` (src/main.py lines 72-83) -/

/-- A decoded 3-channel colour image: rows of `(B, G, R)` pixels
(OpenCV's `cv2.imdecode(..., cv2.IMREAD_COLOR)` layout). -/
abbrev Img := List (List (ℕ × ℕ × ℕ))

/-- A single-channel image: rows of intensities. -/
abbrev GrayImg := List (List ℕ)

/-- OpenCV's fixed-point BGR→gray formula
(`Y = (R*4899 + G*9617 + B*1868 + 8192) >> 14`). -/
def bgr2gray (p : ℕ × ℕ × ℕ) : ℕ :=
  (4899 * p.2.2 + 9617 * p.2.1 + 1868 * p.1 + 8192) / 16384

/-- `cv2.cvtColor(image, cv2.COLOR_BGR2GRAY)`. -/
def cv2_cvtColor_BGR2GRAY (image : Img) : GrayImg :=
  image.map (fun row => row.map bgr2gray)

/-- Between-class statistic of Otsu's method at threshold `t`, as the exact
pair `(s0*n1 - s1*n0, n0*n1)`: the between-class variance is the square of
the first component over the second (up to the constant factor `N²`). -/
def otsuStat (px : List ℕ) (t : ℕ) : ℤ × ℕ :=
  let lo := px.filter (fun p => p ≤ t)
  let n0 : ℕ := lo.length
  let n1 : ℕ := px.length - n0
  let s0 : ℕ := lo.foldl (· + ·) 0
  let s1 : ℕ := px.foldl (· + ·) 0 - s0
  ((s0 : ℤ) * (n1 : ℤ) - (s1 : ℤ) * (n0 : ℤ), n0 * n1)

/-- Exact comparison "the between-class variance at `x` is strictly larger
than at `y`" (degenerate one-class splits have variance 0, matching OpenCV
skipping them). -/
def otsuBetter (x y : ℤ × ℕ) : Bool :=
  if x.2 = 0 then false
  else if y.2 = 0 then decide (x.1 ≠ 0)
  else decide (x.1 * x.1 * (y.2 : ℤ) > y.1 * y.1 * (x.2 : ℤ))

/-- Otsu's automatic threshold over the 8-bit histogram: the first threshold
in `0..255` maximising the between-class variance (OpenCV's
`getThreshVal_Otsu_8u`, which `cv2.THRESH_OTSU` invokes). -/
def otsuThreshold (px : List ℕ) : ℕ :=
  (List.range 256).foldl
    (fun best t => if otsuBetter (otsuStat px t) (otsuStat px best) then t else best) 0

/-- `cv2.threshold(gray, seed, maxval, cv2.THRESH_BINARY_INV + cv2.THRESH_OTSU)`:
with the Otsu flag the `seed` argument is ignored and the threshold is
computed from the histogram; each pixel strictly above the threshold maps to
`0`, the rest to `maxval`.  Returns `(threshold, binary)` like `cv2.threshold`. -/
def cv2_threshold_binary_inv_otsu (gray : GrayImg) (seed maxval : ℕ) : ℕ × GrayImg :=
  let _ := seed
  let t := otsuThreshold gray.flatten
  (t, gray.map (fun row => row.map (fun p => if t < p then 0 else maxval)))

/-- `preprocess_image(image)`: grayscale, inverted Otsu binarisation at seed
150, then invert back (`binary = 255 - binary`). -/
def preprocess_image (image : Img) : GrayImg :=
  let gray := cv2_cvtColor_BGR2GRAY image
  let binary := (cv2_threshold_binary_inv_otsu gray 150 255).2
  binary.map (fun row => row.map (fun p => 255 - p))

/-! ## `extract_text_from_image` and `get_lab_tests` (src/main.py lines 85-105, 136-169)

The image decoder (`cv2.imdecode`) and the OCR engine
(`pytesseract.image_to_string`) are external calls; they are modelled as
function parameters that either return a value or raise
(`PyResult.exn msg` models a raised exception with message `msg`).
`cv2.imdecode` returns `None` (not an exception) on undecodable bytes, and
the subsequent `cv2.cvtColor(None, ...)` inside `preprocess_image` is what
raises; `cvtColorNoneMsg` stands for that OpenCV error message. -/

/-- Result of a call into external Python code: a value or a raised
exception carrying its message. -/
inductive PyResult (α : Type) where
  | ok (a : α)
  | exn (msg : String)
  deriving DecidableEq, Repr

/-- FastAPI's `HTTPException(status_code, detail)`. -/
structure HTTPExc where
  status_code : ℕ
  detail : String
  deriving DecidableEq, Repr

/-- `extract_text_from_image(image_data)`: decode, preprocess, OCR inside a
`try`; any exception is re-raised as
`HTTPException(500, "Error processing image: …")`. -/
def extract_text_from_image
    (imdecode : List ℕ → PyResult (Option Img)) (cvtColorNoneMsg : String)
    (ocr : GrayImg → PyResult String) (image_data : List ℕ) :
    Except HTTPExc String :=
  match imdecode image_data with
  | .exn m => .error ⟨500, "Error processing image: " ++ m⟩
  | .ok none => .error ⟨500, "Error processing image: " ++ cvtColorNoneMsg⟩
  | .ok (some img) =>
    match ocr (preprocess_image img) with
    | .exn m => .error ⟨500, "Error processing image: " ++ m⟩
    | .ok text => .ok text

/-- Character-wise prefix test (helper for `py_startswith`). -/
def startswithChars : List Char → List Char → Bool
  | _, [] => true
  | [], _ :: _ => false
  | a :: s, b :: p => a = b && startswithChars s p

/-- Python `s.startswith(p)`. -/
def py_startswith (s p : String) : Bool :=
  startswithChars s.data p.data

/-- The JSON envelope returned by the `/get-lab-tests` endpoint. -/
structure LabResponse where
  is_success : Bool
  message : Option String
  data : List LabResult
  deriving DecidableEq, Repr

/-- An uploaded file: declared content type and raw bytes. -/
structure UploadFile where
  content_type : String
  contents : List ℕ

/-- The `/get-lab-tests` handler `get_lab_tests(file)` (the always-present
`file` check aside): validate the content type, extract text, extract lab
tests, and wrap the result; raising `HTTPException` is the `.error` case. -/
def get_lab_tests
    (imdecode : List ℕ → PyResult (Option Img)) (cvtColorNoneMsg : String)
    (ocr : GrayImg → PyResult String) (file : UploadFile) :
    Except HTTPExc LabResponse :=
  if py_startswith file.content_type "image/" then
    match extract_text_from_image imdecode cvtColorNoneMsg ocr file.contents with
    | .error e => .error e
    | .ok extracted_text =>
      let lab_tests := extract_lab_tests extracted_text
      if lab_tests.isEmpty then
        .ok { is_success := false,
              message := some "No lab tests could be identified in the image",
              data := [] }
      else
        .ok { is_success := true, message := none, data := lab_tests }
  else
    .error ⟨400, "Uploaded file is not an image"⟩

/-! ## Lemmas on splitting and decimal parsing -/

theorem splitChar_of_not_mem {sep : Char} {cs : List Char} (h : sep ∉ cs) :
    splitChar sep cs = [cs] := by
  induction cs with
  | nil => rfl
  | cons c cs ih =>
    have hc : ¬c = sep := fun hcs => h (hcs ▸ List.mem_cons_self c cs)
    have hcs : sep ∉ cs := fun hm => h (List.mem_cons_of_mem _ hm)
    simp only [splitChar, if_neg hc, ih hcs]

theorem splitChar_append {sep : Char} {xs ys : List Char} (hx : sep ∉ xs) :
    splitChar sep (xs ++ sep :: ys) = xs :: splitChar sep ys := by
  induction xs with
  | nil => simp [splitChar]
  | cons x xs ih =>
    have hc : ¬x = sep := fun hcs => hx (hcs ▸ List.mem_cons_self x xs)
    have hxs : sep ∉ xs := fun hm => hx (List.mem_cons_of_mem _ hm)
    simp only [List.cons_append, splitChar, if_neg hc, List.append_eq]
    rw [ih hxs]

theorem parseUnsigned_chars {cs : List Char} {d : Dec} (h : parseUnsigned cs = some d) :
    ∀ c ∈ cs, c.isDigit = true ∨ c = '.' := by
  have hsplit := List.takeWhile_append_dropWhile (p := Char.isDigit) (l := cs)
  simp only [parseUnsigned] at h
  rcases hdw : cs.dropWhile Char.isDigit with _ | ⟨a, rest⟩ <;> rw [hdw] at h hsplit
  · intro c hc
    rw [← hsplit, List.append_nil] at hc
    exact Or.inl (List.mem_takeWhile_imp hc)
  · simp only [parseRest] at h
    have hcond : a = '.' ∧ rest.all Char.isDigit = true ∧
        ¬((cs.takeWhile Char.isDigit).isEmpty = true ∧ rest.isEmpty = true) := by
      by_contra hcnd
      rw [if_neg hcnd] at h
      exact Option.noConfusion h
    obtain ⟨hdot, hall, _⟩ := hcond
    intro c hc
    rw [← hsplit] at hc
    rcases List.mem_append.mp hc with hmem | hmem
    · exact Or.inl (List.mem_takeWhile_imp hmem)
    · rcases List.mem_cons.mp hmem with rfl | hmem
      · exact Or.inr hdot
      · exact Or.inl (List.all_eq_true.mp hall c hmem)

theorem parseUnsigned_not_dash {cs : List Char} {d : Dec}
    (h : parseUnsigned cs = some d) : '-' ∉ cs := by
  intro hmem
  rcases parseUnsigned_chars h '-' hmem with hd | hd <;> simp at hd

theorem pyFloatChars_of_parseUnsigned {cs : List Char} {d : Dec}
    (h : parseUnsigned cs = some d) : pyFloatChars cs = some d := by
  cases cs with
  | nil => exact h
  | cons a rest =>
    have ha := parseUnsigned_chars h a (List.mem_cons_self a rest)
    have h1 : ¬a = '+' := by
      rintro rfl; rcases ha with hd | hd <;> simp at hd
    have h2 : ¬a = '-' := by
      rintro rfl; rcases ha with hd | hd <;> simp at hd
    simpa only [pyFloatChars, if_neg h1, if_neg h2] using h

theorem data_append_dash (a b : String) :
    (a ++ "-" ++ b).data = a.data ++ '-' :: b.data := by
  simp [String.data_append]

theorem rangeBounds_append {a b : String} {va vb : Dec}
    (ha : parseUnsigned a.data = some va) (hb : parseUnsigned b.data = some vb) :
    splitChar '-' (a ++ "-" ++ b).data = [a.data, b.data]
    ∧ rangeBounds (a ++ "-" ++ b) = some (va, vb) := by
  have hsc : splitChar '-' (a ++ "-" ++ b).data = [a.data, b.data] := by
    rw [data_append_dash, splitChar_append (parseUnsigned_not_dash ha),
      splitChar_of_not_mem (parseUnsigned_not_dash hb)]
  refine ⟨hsc, ?_⟩
  simp only [rangeBounds, hsc, pyFloatChars_of_parseUnsigned ha,
    pyFloatChars_of_parseUnsigned hb]

theorem Dec.blt_iff (x y : Dec) : x.blt y = true ↔ x.toQ < y.toQ := by
  rcases x with ⟨nx, mx, ex⟩
  rcases y with ⟨ny, my, ey⟩
  cases nx <;> cases ny <;>
    simp only [Dec.blt, Dec.toQ, decide_eq_true_eq, Bool.false_eq_true, false_iff,
      if_true, if_false]
  · rw [div_lt_div_iff₀ (by positivity) (by positivity)]
    exact_mod_cast Iff.rfl
  · intro h
    have h1 : (0 : ℚ) ≤ (mx : ℚ) / 10 ^ ex := by positivity
    have h2 : (0 : ℚ) ≤ (my : ℚ) / 10 ^ ey := by positivity
    rw [neg_div] at h
    linarith
  · constructor
    · rintro (h | h)
      · have h1 : (0 : ℚ) < (mx : ℚ) / 10 ^ ex :=
          div_pos (by exact_mod_cast h) (by positivity)
        have h2 : (0 : ℚ) ≤ (my : ℚ) / 10 ^ ey := by positivity
        rw [neg_div]
        linarith
      · have h1 : (0 : ℚ) ≤ (mx : ℚ) / 10 ^ ex := by positivity
        have h2 : (0 : ℚ) < (my : ℚ) / 10 ^ ey :=
          div_pos (by exact_mod_cast h) (by positivity)
        rw [neg_div]
        linarith
    · intro h
      by_contra hc
      push_neg at hc
      obtain ⟨hx0, hy0⟩ := hc
      rw [Nat.le_zero.mp hx0, Nat.le_zero.mp hy0] at h
      norm_num at h
  · rw [neg_div, neg_div, neg_lt_neg_iff, div_lt_div_iff₀ (by positivity) (by positivity)]
    exact_mod_cast Iff.rfl

theorem dyLt_iff (m₁ m₂ : ℕ) (t₁ t₂ : ℤ) :
    dyLt m₁ t₁ m₂ t₂ = true ↔ (m₁ : ℚ) * 2 ^ t₁ < (m₂ : ℚ) * 2 ^ t₂ := by
  unfold dyLt
  rw [decide_eq_true_eq]
  rcases le_total t₁ t₂ with ht | ht
  · have h1 : (t₁ - t₂).toNat = 0 := by omega
    have h2 : ((t₂ - t₁).toNat : ℤ) = t₂ - t₁ := by omega
    rw [h1, pow_zero, mul_one]
    rw [show (2 : ℚ) ^ t₂ = 2 ^ (t₂ - t₁) * 2 ^ t₁ by
      rw [← zpow_add₀ (two_ne_zero : (2 : ℚ) ≠ 0)]
      congr 1
      omega]
    rw [← mul_assoc, mul_lt_mul_right (zpow_pos (by norm_num : (0 : ℚ) < 2) t₁)]
    rw [← h2, zpow_natCast]
    exact_mod_cast Iff.rfl
  · have h1 : (t₂ - t₁).toNat = 0 := by omega
    have h2 : ((t₁ - t₂).toNat : ℤ) = t₁ - t₂ := by omega
    rw [h1, pow_zero, mul_one]
    rw [show (2 : ℚ) ^ t₁ = 2 ^ (t₁ - t₂) * 2 ^ t₂ by
      rw [← zpow_add₀ (two_ne_zero : (2 : ℚ) ≠ 0)]
      congr 1
      omega]
    rw [← mul_assoc, mul_lt_mul_right (zpow_pos (by norm_num : (0 : ℚ) < 2) t₂)]
    rw [← h2, zpow_natCast]
    exact_mod_cast Iff.rfl

theorem B64.blt_fin_iff (n₁ n₂ : Bool) (m₁ m₂ : ℕ) (t₁ t₂ : ℤ) :
    B64.blt (.fin n₁ m₁ t₁) (.fin n₂ m₂ t₂) = true ↔
      B64.toQfin n₁ m₁ t₁ < B64.toQfin n₂ m₂ t₂ := by
  cases n₁ <;> cases n₂ <;>
    simp only [B64.blt, B64.toQfin, decide_eq_true_eq, Bool.false_eq_true, false_iff,
      if_true, if_false]
  · exact dyLt_iff m₁ m₂ t₁ t₂
  · intro h
    have h1 : (0 : ℚ) ≤ (m₁ : ℚ) * 2 ^ t₁ := by positivity
    have h2 : (0 : ℚ) ≤ (m₂ : ℚ) * 2 ^ t₂ := by positivity
    rw [neg_mul] at h
    linarith
  · constructor
    · rintro (h | h)
      · have h1 : (0 : ℚ) < (m₁ : ℚ) * 2 ^ t₁ :=
          mul_pos (by exact_mod_cast h) (by positivity)
        have h2 : (0 : ℚ) ≤ (m₂ : ℚ) * 2 ^ t₂ := by positivity
        rw [neg_mul]
        linarith
      · have h1 : (0 : ℚ) ≤ (m₁ : ℚ) * 2 ^ t₁ := by positivity
        have h2 : (0 : ℚ) < (m₂ : ℚ) * 2 ^ t₂ :=
          mul_pos (by exact_mod_cast h) (by positivity)
        rw [neg_mul]
        linarith
    · intro h
      by_contra hc
      push_neg at hc
      obtain ⟨hx0, hy0⟩ := hc
      rw [Nat.le_zero.mp hx0, Nat.le_zero.mp hy0] at h
      norm_num at h
  · rw [dyLt_iff, neg_mul, neg_mul, neg_lt_neg_iff]

theorem rangeBounds_b64_append {a b : String} {va vb : Dec}
    (ha : parseUnsigned a.data = some va) (hb : parseUnsigned b.data = some vb) :
    rangeBounds_b64 (a ++ "-" ++ b) = some (flB64 va, flB64 vb) := by
  have hsc : splitChar '-' (a ++ "-" ++ b).data = [a.data, b.data] := by
    rw [data_append_dash, splitChar_append (parseUnsigned_not_dash ha),
      splitChar_of_not_mem (parseUnsigned_not_dash hb)]
  simp only [rangeBounds_b64, hsc, pyFloatChars_of_parseUnsigned ha,
    pyFloatChars_of_parseUnsigned hb]
  rfl

set_option maxRecDepth 4000 in
/-- Claim C1 (counterexample): at value `"11.999999999999999999"` and range
`"12.0-15.0"` — squarely inside the claim's quantified domain — the exact
decimal value v of the value string is strictly below the range minimum
a = 12.0, so the claim as stated asserts the function returns true; but
Python's `float` rounds v and a to the *same* binary64 double 12.0 (v is
only 10⁻¹⁸ below 12, far less than half the 2⁻⁴⁹ spacing of doubles there),
the program compares 12.0 < 12.0 ∨ 12.0 > 15.0, and returns false.  The
last conjunct shows the exact-decimal idealization computing true at the
same input, exhibiting the divergence. -/
theorem C1_counterexample :
    pyFloat "11.999999999999999999" = some ⟨false, 11999999999999999999, 18⟩
    ∧ Dec.toQ ⟨false, 11999999999999999999, 18⟩ < Dec.toQ ⟨false, 120, 1⟩
    ∧ flB64 ⟨false, 11999999999999999999, 18⟩ = flB64 ⟨false, 120, 1⟩
    ∧ is_value_out_of_range_b64 "11.999999999999999999" "12.0-15.0" = false
    ∧ is_value_out_of_range "11.999999999999999999" "12.0-15.0" = true :=
  ⟨by decide, (Dec.blt_iff _ _).mp (by decide), by decide, by decide, by decide⟩

/-- Claim C1 (amended): for a reference range `"a-b"` built from two decimal
literals and a value string parsing to a decimal number, with the binary64
roundings fl(v), fl(a), fl(b) of the three parsed numbers finite, the range
check (read bit-faithfully: comparing the values `float` actually produces)
returns true iff fl(v) < fl(a) or fl(v) > fl(b), and returns false whenever
fl(a) ≤ fl(v) ≤ fl(b) (boundaries inclusive). -/
theorem C1_rounded_isOutOfRange_iff (a b value : String) (va vb v : Dec)
    (xn an bn : Bool) (xm am bm : ℕ) (xt at' bt : ℤ)
    (ha : parseUnsigned a.data = some va) (hb : parseUnsigned b.data = some vb)
    (hv : pyFloat value = some v)
    (hfv : flB64 v = B64.fin xn xm xt)
    (hfa : flB64 va = B64.fin an am at')
    (hfb : flB64 vb = B64.fin bn bm bt) :
    (is_value_out_of_range_b64 value (a ++ "-" ++ b) = true ↔
      (B64.toQfin xn xm xt < B64.toQfin an am at'
        ∨ B64.toQfin bn bm bt < B64.toQfin xn xm xt))
    ∧ (B64.toQfin an am at' ≤ B64.toQfin xn xm xt →
        B64.toQfin xn xm xt ≤ B64.toQfin bn bm bt →
        is_value_out_of_range_b64 value (a ++ "-" ++ b) = false) := by
  have hrb := rangeBounds_b64_append ha hb
  have hfl : flFloat value = some (flB64 v) := by
    unfold flFloat
    rw [hv]
    rfl
  have hone : is_value_out_of_range_b64 value (a ++ "-" ++ b)
      = (B64.blt (flB64 v) (flB64 va) || B64.blt (flB64 vb) (flB64 v)) := by
    unfold is_value_out_of_range_b64
    rw [hrb, hfl]
  rw [hone, hfv, hfa, hfb]
  constructor
  · rw [Bool.or_eq_true, B64.blt_fin_iff, B64.blt_fin_iff]
  · intro h1 h2
    have b1 : B64.blt (.fin xn xm xt) (.fin an am at') = false := by
      rw [Bool.eq_false_iff]
      intro hc
      exact absurd ((B64.blt_fin_iff xn an xm am xt at').mp hc) (not_lt.mpr h1)
    have b2 : B64.blt (.fin bn bm bt) (.fin xn xm xt) = false := by
      rw [Bool.eq_false_iff]
      intro hc
      exact absurd ((B64.blt_fin_iff bn xn bm xm bt xt).mp hc) (not_lt.mpr h2)
    rw [b1, b2]
    rfl

theorem C1_rounded_isOutOfRange_iff_witness :
    parseUnsigned ("12.0" : String).data = some ⟨false, 120, 1⟩
    ∧ parseUnsigned ("15.0" : String).data = some ⟨false, 150, 1⟩
    ∧ pyFloat "10.5" = some ⟨false, 105, 1⟩
    ∧ flB64 ⟨false, 105, 1⟩ = B64.fin false 5910974510923776 (-49)
    ∧ flB64 ⟨false, 120, 1⟩ = B64.fin false 6755399441055744 (-49)
    ∧ flB64 ⟨false, 150, 1⟩ = B64.fin false 8444249301319680 (-49)
    ∧ ((is_value_out_of_range_b64 "10.5" ("12.0" ++ "-" ++ "15.0") = true ↔
        (B64.toQfin false 5910974510923776 (-49) < B64.toQfin false 6755399441055744 (-49)
          ∨ B64.toQfin false 8444249301319680 (-49) <
              B64.toQfin false 5910974510923776 (-49)))
      ∧ (B64.toQfin false 6755399441055744 (-49) ≤ B64.toQfin false 5910974510923776 (-49) →
          B64.toQfin false 5910974510923776 (-49) ≤ B64.toQfin false 8444249301319680 (-49) →
          is_value_out_of_range_b64 "10.5" ("12.0" ++ "-" ++ "15.0") = false)) :=
  ⟨by decide, by decide, by decide, by decide, by decide, by decide,
   C1_rounded_isOutOfRange_iff "12.0" "15.0" "10.5" ⟨false, 120, 1⟩ ⟨false, 150, 1⟩
     ⟨false, 105, 1⟩ false false false 5910974510923776 6755399441055744 8444249301319680
     (-49) (-49) (-49) (by decide) (by decide) (by decide) (by decide) (by decide)
     (by decide)⟩

/-- Claim C2: `is_value_out_of_range` never raises (the Lean embedding is a
total function, mirroring the source's `try/except`), and whenever parsing
the value or the reference range fails it returns `false`. -/
theorem C2_parse_failure_false (value reference_range : String)
    (h : pyFloat value = none ∨ rangeBounds reference_range = none) :
    is_value_out_of_range value reference_range = false := by
  unfold is_value_out_of_range
  rcases hrb : rangeBounds reference_range with _ | ⟨mn, mx⟩
  · rfl
  · rcases h with h | h
    · rw [h]
    · exact absurd hrb (by rw [h]; simp)

theorem C2_parse_failure_false_witness :
    (pyFloat "abc" = none ∨ rangeBounds "12.0-15.0" = none)
    ∧ (pyFloat "13.0" = none ∨ rangeBounds "bad-range" = none)
    ∧ is_value_out_of_range "abc" "12.0-15.0" = false
    ∧ is_value_out_of_range "13.0" "bad-range" = false :=
  ⟨Or.inl (by decide), Or.inr (by decide),
   C2_parse_failure_false "abc" "12.0-15.0" (Or.inl (by decide)),
   C2_parse_failure_false "13.0" "bad-range" (Or.inr (by decide))⟩

/-- Claim C6: the reference range is parsed by splitting into exactly two
parts at the separating `-` (for any range string whose first-`-` split
yields two decimal literals, the split produces exactly those two parts and
the comparison uses exactly those two numbers). -/
theorem C6_range_split (a b value : String) (va vb : Dec)
    (ha : parseUnsigned a.data = some va) (hb : parseUnsigned b.data = some vb) :
    splitChar '-' (a ++ "-" ++ b).data = [a.data, b.data]
    ∧ rangeBounds (a ++ "-" ++ b) = some (va, vb)
    ∧ is_value_out_of_range value (a ++ "-" ++ b) =
        (match pyFloat value with
         | some v => v.blt va || vb.blt v
         | none => false) := by
  obtain ⟨hsc, hrb⟩ := rangeBounds_append ha hb
  refine ⟨hsc, hrb, ?_⟩
  unfold is_value_out_of_range
  rw [hrb]
  rcases hv : pyFloat value with _ | v <;> rfl

theorem C6_range_split_witness :
    parseUnsigned ("1.5" : String).data = some ⟨false, 15, 1⟩
    ∧ parseUnsigned ("4.5" : String).data = some ⟨false, 45, 1⟩
    ∧ (splitChar '-' ("1.5" ++ "-" ++ "4.5").data = [("1.5" : String).data, ("4.5" : String).data]
       ∧ rangeBounds ("1.5" ++ "-" ++ "4.5") = some (⟨false, 15, 1⟩, ⟨false, 45, 1⟩)
       ∧ is_value_out_of_range "5.1" ("1.5" ++ "-" ++ "4.5") =
          (match pyFloat "5.1" with
           | some v => v.blt ⟨false, 15, 1⟩ || Dec.blt ⟨false, 45, 1⟩ v
           | none => false)) :=
  ⟨by decide, by decide,
   C6_range_split "1.5" "4.5" "5.1" ⟨false, 15, 1⟩ ⟨false, 45, 1⟩ (by decide) (by decide)⟩

/-! ## Lemmas about the matching engine -/

theorem firstSome_eq_some {α β : Type} {l : List α} {f : α → Option β} {r : β}
    (h : firstSome l f = some r) : ∃ x ∈ l, f x = some r := by
  induction l with
  | nil => exact absurd h (by simp [firstSome])
  | cons x xs ih =>
    rw [firstSome] at h
    split at h
    · rename_i r₁ hfx
      exact ⟨x, List.mem_cons_self x xs, by rw [hfx, h]⟩
    · obtain ⟨y, hy, hfy⟩ := ih h
      exact ⟨y, List.mem_cons_of_mem x hy, hfy⟩

theorem clsSuffixes_mem {c : CharClass} {s x : List Char}
    (h : x ∈ clsSuffixes c s) : ∃ pre, s = pre ++ x ∧ pre.all c.mem = true := by
  induction s with
  | nil =>
    simp only [clsSuffixes, List.mem_singleton] at h
    exact ⟨[], by simp [h]⟩
  | cons a t ih =>
    rw [clsSuffixes] at h
    split at h
    · rename_i hm
      rcases List.mem_append.mp h with h₁ | h₂
      · obtain ⟨pre, hpre, hall⟩ := ih h₁
        exact ⟨a :: pre, by rw [hpre, List.cons_append], by simp [hm, hall]⟩
      · rw [List.mem_singleton] at h₂
        exact ⟨[], by simp [h₂], by simp⟩
    · rw [List.mem_singleton] at h
      exact ⟨[], by simp [h], by simp⟩

theorem optCands_mem {c : CharClass} {s x : List Char} (h : x ∈ optCands c s) :
    s = x ∨ ∃ a, c.mem a = true ∧ s = a :: x := by
  unfold optCands at h
  split at h
  · rw [List.mem_singleton] at h
    exact Or.inl h.symm
  · rename_i a t
    split at h
    · rename_i hm
      rcases List.mem_cons.mp h with he | he
      · exact Or.inr ⟨a, hm, by rw [he]⟩
      · rw [List.mem_singleton] at he
        exact Or.inl he.symm
    · rw [List.mem_singleton] at h
      exact Or.inl h.symm

theorem take_append_cancel (pre suf : List Char) :
    (pre ++ suf).take ((pre ++ suf).length - suf.length) = pre := by
  rw [List.length_append, Nat.add_sub_cancel]
  exact List.take_left pre suf

theorem decShape_of_parts {a : Char} {p₁ p₂ p₃ : List Char}
    (ha : Char.isDigit a = true) (h₁ : p₁.all Char.isDigit = true)
    (h₂ : p₂ = [] ∨ (p₂ = ['.'])) (h₃ : p₃.all Char.isDigit = true) :
    DecShape (a :: (p₁ ++ (p₂ ++ p₃))) := by
  rcases h₂ with rfl | rfl
  · refine ⟨a :: (p₁ ++ p₃), [], by simp, by simp, ?_, Or.inl rfl⟩
    rw [List.all_eq_true]
    intro x hx
    rcases List.mem_cons.mp hx with rfl | hx
    · exact ha
    · rcases List.mem_append.mp hx with hx | hx
      · exact List.all_eq_true.mp h₁ x hx
      · exact List.all_eq_true.mp h₃ x hx
  · refine ⟨a :: p₁, '.' :: p₃, by simp, by simp, ?_, Or.inr ⟨p₃, rfl, h₃⟩⟩
    simp [List.all_cons, ha, h₁]

theorem matchList_g1Set {Q : Prop} :
    ∀ (ps : List Piece) (s : List Char) (caps : Caps)
      (k : List Char → Caps → Option Caps) (res : Caps),
      matchList ps s caps k = some res →
      (∀ s₁ caps₁, (G1Set caps₁ ∨ (Piece.grpValue ∉ ps ∧ caps₁.g1 = caps.g1)) →
        k s₁ caps₁ = some res → Q) → Q := by
  intro ps
  induction ps with
  | nil =>
    intro s caps k res h hk
    exact hk s caps (Or.inr ⟨by simp, rfl⟩) h
  | cons p ps ih =>
    have hmono : ∀ (q : Piece), q ≠ Piece.grpValue → Piece.grpValue ∉ ps →
        Piece.grpValue ∉ q :: ps := by
      intro q hq hps hmem
      rcases List.mem_cons.mp hmem with he | he
      · exact hq he.symm
      · exact hps he
    intro s caps k res h hk
    cases p with
    | one c =>
      cases s with
      | nil => rw [matchList] at h; exact absurd h (by simp)
      | cons a s₁ =>
        rw [matchList] at h
        split at h
        · refine ih s₁ caps k res h (fun s₂ caps₂ hd hres => hk s₂ caps₂ ?_ hres)
          rcases hd with hg | ⟨hnm, hg1⟩
          · exact Or.inl hg
          · exact Or.inr ⟨hmono _ (by simp) hnm, hg1⟩
        · exact absurd h (by simp)
    | opt c =>
      rw [matchList] at h
      obtain ⟨s₁, _, h₁⟩ := firstSome_eq_some h
      refine ih s₁ caps k res h₁ (fun s₂ caps₂ hd hres => hk s₂ caps₂ ?_ hres)
      rcases hd with hg | ⟨hnm, hg1⟩
      · exact Or.inl hg
      · exact Or.inr ⟨hmono _ (by simp) hnm, hg1⟩
    | star c =>
      rw [matchList] at h
      obtain ⟨s₁, _, h₁⟩ := firstSome_eq_some h
      refine ih s₁ caps k res h₁ (fun s₂ caps₂ hd hres => hk s₂ caps₂ ?_ hres)
      rcases hd with hg | ⟨hnm, hg1⟩
      · exact Or.inl hg
      · exact Or.inr ⟨hmono _ (by simp) hnm, hg1⟩
    | litCI l =>
      rw [matchList] at h
      split at h
      · rename_i s₁ hst
        refine ih s₁ caps k res h (fun s₂ caps₂ hd hres => hk s₂ caps₂ ?_ hres)
        rcases hd with hg | ⟨hnm, hg1⟩
        · exact Or.inl hg
        · exact Or.inr ⟨hmono _ (by simp) hnm, hg1⟩
      · exact absurd h (by simp)
    | grpValue =>
      cases s with
      | nil => rw [matchList] at h; exact absurd h (by simp)
      | cons a s₁ =>
        rw [matchList] at h
        split at h
        · rename_i ha
          obtain ⟨s₂, hs₂, h₂⟩ := firstSome_eq_some h
          obtain ⟨s₃, hs₃, h₃⟩ := firstSome_eq_some h₂
          obtain ⟨s₄, hs₄, h₄⟩ := firstSome_eq_some h₃
          obtain ⟨p₁, hp₁, hall₁⟩ := clsSuffixes_mem hs₂
          obtain ⟨p₃, hp₃, hall₃⟩ := clsSuffixes_mem hs₄
          have hadig : Char.isDigit a = true := by simpa [CharClass.mem] using ha
          have hsplit2 : ∃ p₂, (p₂ = ([] : List Char) ∨ p₂ = ['.']) ∧ s₂ = p₂ ++ s₃ := by
            rcases optCands_mem hs₃ with he | ⟨d, hd, he⟩
            · exact ⟨[], Or.inl rfl, by simpa using he⟩
            · have hdd : d = '.' := by simpa [CharClass.mem] using hd
              exact ⟨['.'], Or.inr rfl, by simp [he, hdd]⟩
          obtain ⟨p₂, hp₂or, hp₂⟩ := hsplit2
          have hdecomp : a :: s₁ = (a :: (p₁ ++ (p₂ ++ p₃))) ++ s₄ := by
            simp [hp₁, hp₂, hp₃]
          have hshape : DecShape ((a :: s₁).take ((a :: s₁).length - s₄.length)) := by
            rw [hdecomp, take_append_cancel]
            exact decShape_of_parts hadig hall₁ hp₂or hall₃
          refine ih s₄ _ k res h₄ (fun s₅ caps₅ hd hres => hk s₅ caps₅ ?_ hres)
          rcases hd with hg | ⟨_, hg1⟩
          · exact Or.inl hg
          · exact Or.inl ⟨_, by rw [hg1]; rfl, hshape⟩
        · exact absurd h (by simp)
    | grpUnit alts =>
      rw [matchList] at h
      obtain ⟨l, _, h₁⟩ := firstSome_eq_some h
      split at h₁
      · rename_i s₁ hst
        refine ih s₁ (setG2 (s.take (s.length - s₁.length)) caps) k res h₁
          (fun s₂ caps₂ hd hres => hk s₂ caps₂ ?_ hres)
        rcases hd with hg | ⟨hnm, hg1⟩
        · exact Or.inl hg
        · exact Or.inr ⟨hmono _ (by simp) hnm, hg1⟩
      · exact absurd h₁ (by simp)

theorem matchHere_g1Set {ps : List Piece} (hgv : Piece.grpValue ∈ ps)
    {s : List Char} {caps : Caps} (h : matchHere ps s = some caps) : G1Set caps := by
  unfold matchHere at h
  refine matchList_g1Set ps s ⟨none, none⟩ _ caps h (fun s₁ caps₁ hd hres => ?_)
  have hcaps : caps₁ = caps := by simpa using hres
  rcases hd with hg | ⟨hnm, _⟩
  · exact hcaps ▸ hg
  · exact absurd hgv hnm

theorem searchFrom_g1Set {ps : List Piece} (hgv : Piece.grpValue ∈ ps) :
    ∀ {s : List Char} {caps : Caps}, searchFrom ps s = some caps → G1Set caps := by
  intro s
  induction s with
  | nil =>
    intro caps h
    rw [searchFrom] at h
    exact matchHere_g1Set hgv h
  | cons a t ih =>
    intro caps h
    rw [searchFrom] at h
    split at h
    · rename_i caps₁ hm
      have hc : caps₁ = caps := by simpa using h
      exact hc ▸ matchHere_g1Set hgv hm
    · exact ih h

theorem searchFrom_leftmost {ps : List Piece} :
    ∀ {s : List Char} {caps : Caps}, searchFrom ps s = some caps →
      ∃ i, matchHere ps (s.drop i) = some caps ∧
        ∀ j, j < i → matchHere ps (s.drop j) = none := by
  intro s
  induction s with
  | nil =>
    intro caps h
    rw [searchFrom] at h
    exact ⟨0, by simpa using h, fun j hj => absurd hj (Nat.not_lt_zero j)⟩
  | cons a t ih =>
    intro caps h
    rw [searchFrom] at h
    split at h
    · rename_i caps₁ hm
      have hc : caps₁ = caps := by simpa using h
      exact ⟨0, by simpa using hc ▸ hm, fun j hj => absurd hj (Nat.not_lt_zero j)⟩
    · rename_i hm
      obtain ⟨i, hi, hlt⟩ := ih h
      refine ⟨i + 1, by simpa using hi, fun j hj => ?_⟩
      cases j with
      | zero => simpa using hm
      | succ j => simpa using hlt j (Nat.lt_of_succ_lt_succ hj)

/-! ## Lemmas about `extract_lab_tests` -/

theorem mkResult_inv {text : String} {t : TestDef} {r : LabResult}
    (h : mkResult text t = some r) :
    ∃ m, re_search t.pattern text = some m ∧
      r = { test_name := t.name,
            test_value := String.mk (m.g1.getD []),
            bio_reference_range := t.reference_range.getD "",
            test_unit := t.unit.getD (String.mk (m.g2.getD [])),
            lab_test_out_of_range :=
              is_value_out_of_range (String.mk (m.g1.getD []))
                (t.reference_range.getD "") } := by
  simp only [mkResult] at h
  split at h
  · rename_i m hm
    exact ⟨m, hm, (Option.some.inj h).symm⟩
  · exact absurd h (by simp)

theorem mkResult_fields {text : String} {t : TestDef} {r : LabResult}
    (h : mkResult text t = some r) :
    ∃ m, re_search t.pattern text = some m ∧ r.test_name = t.name
      ∧ r.test_value = String.mk (m.g1.getD [])
      ∧ r.test_unit = t.unit.getD (String.mk (m.g2.getD []))
      ∧ r.bio_reference_range = t.reference_range.getD "" := by
  obtain ⟨m, hm, rfl⟩ := mkResult_inv h
  exact ⟨m, hm, rfl, rfl, rfl, rfl⟩

theorem takeWhile_eq_self_of_all {p : Char → Bool} {l : List Char} (h : l.all p = true) :
    l.takeWhile p = l := by
  induction l with
  | nil => rfl
  | cons a t ih =>
    rw [List.all_cons, Bool.and_eq_true] at h
    rw [List.takeWhile_cons_of_pos h.1, ih h.2]

theorem dropWhile_eq_nil_of_all {p : Char → Bool} {l : List Char} (h : l.all p = true) :
    l.dropWhile p = [] := by
  induction l with
  | nil => rfl
  | cons a t ih =>
    rw [List.all_cons, Bool.and_eq_true] at h
    rw [List.dropWhile_cons_of_pos h.1, ih h.2]

theorem takeWhile_append_stop {p : Char → Bool} {l r : List Char} {c : Char}
    (hl : l.all p = true) (hc : p c = false) :
    (l ++ c :: r).takeWhile p = l := by
  induction l with
  | nil => rw [List.nil_append, List.takeWhile_cons_of_neg (by simp [hc])]
  | cons a t ih =>
    rw [List.all_cons, Bool.and_eq_true] at hl
    rw [List.cons_append, List.takeWhile_cons_of_pos hl.1, ih hl.2]

theorem dropWhile_append_stop {p : Char → Bool} {l r : List Char} {c : Char}
    (hl : l.all p = true) (hc : p c = false) :
    (l ++ c :: r).dropWhile p = c :: r := by
  induction l with
  | nil => rw [List.nil_append, List.dropWhile_cons_of_neg (by simp [hc])]
  | cons a t ih =>
    rw [List.all_cons, Bool.and_eq_true] at hl
    rw [List.cons_append, List.dropWhile_cons_of_pos hl.1, ih hl.2]

theorem parseUnsigned_of_shape {w : List Char} (h : DecShape w) :
    (parseUnsigned w).isSome = true := by
  obtain ⟨ds, rest, rfl, hne, hall, hrest⟩ := h
  have hdsne : ds.isEmpty = false := by
    cases ds
    · exact absurd rfl hne
    · rfl
  rcases hrest with rfl | ⟨fs, rfl, hfs⟩
  · rw [List.append_nil]
    unfold parseUnsigned
    rw [takeWhile_eq_self_of_all hall, dropWhile_eq_nil_of_all hall]
    simp [parseRest, hdsne]
  · unfold parseUnsigned
    rw [takeWhile_append_stop hall (by decide), dropWhile_append_stop hall (by decide)]
    simp [parseRest, hdsne, hfs]

theorem pyFloat_of_shape {w : List Char} (h : DecShape w) :
    (pyFloat (String.mk w)).isSome = true := by
  have hps := parseUnsigned_of_shape h
  rcases hd : parseUnsigned w with _ | d
  · rw [hd] at hps
    exact absurd hps (by simp)
  · have : pyFloatChars w = some d := pyFloatChars_of_parseUnsigned hd
    unfold pyFloat
    rw [show (String.mk w).data = w from rfl, this]
    rfl

theorem filterMap_map_sublist {α β γ : Type} (l : List α) (f : α → Option β)
    (g : β → γ) (gh : α → γ) (hfg : ∀ a b, f a = some b → g b = gh a) :
    ((l.filterMap f).map g).Sublist (l.map gh) := by
  induction l with
  | nil => simp
  | cons a l ih =>
    rw [List.filterMap_cons, List.map_cons]
    rcases hfa : f a with _ | b
    · exact ih.cons _
    · rw [List.map_cons, hfg a b hfa]
      exact ih.cons₂ _

theorem grpValue_mem_catalog {t : TestDef} (ht : t ∈ LAB_TEST_PATTERNS) :
    Piece.grpValue ∈ t.pattern := by
  simp only [LAB_TEST_PATTERNS, List.mem_cons, List.not_mem_nil, or_false] at ht
  rcases ht with rfl | rfl | rfl | rfl | rfl <;> decide

theorem unit_isSome_catalog {t : TestDef} (ht : t ∈ LAB_TEST_PATTERNS) :
    ∃ u, t.unit = some u := by
  simp only [LAB_TEST_PATTERNS, List.mem_cons, List.not_mem_nil, or_false] at ht
  rcases ht with rfl | rfl | rfl | rfl | rfl <;> exact ⟨_, rfl⟩

/-! ## Claims about the extraction pipeline -/

/-- Claim C3: when no catalog pattern matches the recognized text,
`extract_lab_tests` yields the empty list and the request handler returns a
normal response (no `HTTPException` is raised) carrying an empty data list —
the boundary layer surfaces the empty match as its distinct "no tests found"
envelope. -/
theorem C3_no_match_not_error
    (imdecode : List ℕ → PyResult (Option Img)) (cvtColorNoneMsg : String)
    (ocr : GrayImg → PyResult String) (file : UploadFile) (text : String)
    (hct : py_startswith file.content_type "image/" = true)
    (htext : extract_text_from_image imdecode cvtColorNoneMsg ocr file.contents = .ok text)
    (hnone : ∀ t ∈ LAB_TEST_PATTERNS, re_search t.pattern text = none) :
    extract_lab_tests text = []
    ∧ get_lab_tests imdecode cvtColorNoneMsg ocr file =
        .ok { is_success := false,
              message := some "No lab tests could be identified in the image",
              data := [] } := by
  have hempty : extract_lab_tests text = [] := by
    rw [extract_lab_tests, List.filterMap_eq_nil_iff]
    intro t ht
    simp only [mkResult, hnone t ht]
  refine ⟨hempty, ?_⟩
  rw [get_lab_tests, if_pos hct, htext]
  simp [hempty]

theorem C3_no_match_not_error_witness :
    (py_startswith "image/png" "image/" = true)
    ∧ extract_text_from_image (fun _ => .ok (some [])) "" (fun _ => .ok "") [] = .ok ""
    ∧ (∀ t ∈ LAB_TEST_PATTERNS, re_search t.pattern "" = none)
    ∧ extract_lab_tests "" = []
    ∧ get_lab_tests (fun _ => .ok (some [])) "" (fun _ => .ok "") ⟨"image/png", []⟩ =
        .ok { is_success := false,
              message := some "No lab tests could be identified in the image",
              data := [] } := by
  refine ⟨by decide, by rfl, by decide, ?_⟩
  exact C3_no_match_not_error (fun _ => .ok (some [])) "" (fun _ => .ok "")
    ⟨"image/png", []⟩ "" (by decide) (by rfl) (by decide)

/-- Claim C4: every record produced by `extract_lab_tests` carries as
`test_unit` the canonical `unit` string of the catalog entry that produced
it — never the in-text captured group 2 (which is discarded in favor of the
canonical unit). -/
theorem C4_canonical_unit (text : String) (r : LabResult)
    (hr : r ∈ extract_lab_tests text) :
    ∃ t ∈ LAB_TEST_PATTERNS, r.test_name = t.name ∧ t.unit = some r.test_unit := by
  obtain ⟨t, ht, hmk⟩ := List.mem_filterMap.mp hr
  obtain ⟨m, _, hname, _, hunit, _⟩ := mkResult_fields hmk
  obtain ⟨u, hu⟩ := unit_isSome_catalog ht
  refine ⟨t, ht, hname, ?_⟩
  rw [hunit, hu]
  rfl

theorem C4_canonical_unit_witness :
    ∃ t ∈ LAB_TEST_PATTERNS,
      (LabResult.mk "HB ESTIMATION" "10.5" "12.0-15.0" "g/dL" true).test_name = t.name
      ∧ t.unit = some (LabResult.mk "HB ESTIMATION" "10.5" "12.0-15.0" "g/dL" true).test_unit :=
  C4_canonical_unit "HB ESTIMATION: 10.5 g/dL" _ (by decide)

/-- Claim C5: `extract_lab_tests` produces at most one record per catalog
entry, in catalog order restricted to the matching entries (regardless of
where the matches occur in the text), and each record's `test_value` is
group 1 of the first (leftmost) match of that entry's pattern in the text. -/
theorem C5_order_and_first_match (text : String) :
    ((extract_lab_tests text).map LabResult.test_name).Sublist
        (LAB_TEST_PATTERNS.map TestDef.name)
    ∧ (∀ n, ((extract_lab_tests text).map LabResult.test_name).count n ≤ 1)
    ∧ (∀ r ∈ extract_lab_tests text, ∃ t ∈ LAB_TEST_PATTERNS, r.test_name = t.name ∧
        ∃ m i, matchHere t.pattern (text.data.drop i) = some m
          ∧ (∀ j, j < i → matchHere t.pattern (text.data.drop j) = none)
          ∧ r.test_value = String.mk (m.g1.getD [])) := by
  have hsub : ((extract_lab_tests text).map LabResult.test_name).Sublist
      (LAB_TEST_PATTERNS.map TestDef.name) := by
    refine filterMap_map_sublist _ _ _ _ (fun t r hmk => ?_)
    obtain ⟨m, _, rfl⟩ := mkResult_inv hmk
    rfl
  have hnodup : (LAB_TEST_PATTERNS.map TestDef.name).Nodup := by decide
  refine ⟨hsub, fun n => le_trans (hsub.count_le n)
    (List.nodup_iff_count_le_one.mp hnodup n), fun r hr => ?_⟩
  obtain ⟨t, ht, hmk⟩ := List.mem_filterMap.mp hr
  obtain ⟨m, hm, rfl⟩ := mkResult_inv hmk
  obtain ⟨i, hi, hlt⟩ := searchFrom_leftmost hm
  exact ⟨t, ht, rfl, m, i, hi, hlt, rfl⟩

theorem C5_order_and_first_match_witness :
    ((extract_lab_tests "PLATELET COUNT: 2.0 lakhs/cmm HB ESTIMATION: 13.0 g/dL").map
        LabResult.test_name).Sublist (LAB_TEST_PATTERNS.map TestDef.name)
    ∧ (∀ n, ((extract_lab_tests "PLATELET COUNT: 2.0 lakhs/cmm HB ESTIMATION: 13.0 g/dL").map
        LabResult.test_name).count n ≤ 1)
    ∧ (∀ r ∈ extract_lab_tests "PLATELET COUNT: 2.0 lakhs/cmm HB ESTIMATION: 13.0 g/dL",
        ∃ t ∈ LAB_TEST_PATTERNS, r.test_name = t.name ∧
        ∃ m i, matchHere t.pattern
            (("PLATELET COUNT: 2.0 lakhs/cmm HB ESTIMATION: 13.0 g/dL" : String).data.drop i) = some m
          ∧ (∀ j, j < i → matchHere t.pattern
              (("PLATELET COUNT: 2.0 lakhs/cmm HB ESTIMATION: 13.0 g/dL" : String).data.drop j) = none)
          ∧ r.test_value = String.mk (m.g1.getD [])) :=
  C5_order_and_first_match "PLATELET COUNT: 2.0 lakhs/cmm HB ESTIMATION: 13.0 g/dL"

/-- Claim C7: on the exact input text `"HB ESTIMATION: 10.5 g/dL"`,
`extract_lab_tests` returns exactly one record, with name
`"HB ESTIMATION"`, value `"10.5"`, unit `"g/dL"`, reference range
`"12.0-15.0"` and the out-of-range flag set (10.5 < 12.0). -/
theorem C7_hb_example :
    extract_lab_tests "HB ESTIMATION: 10.5 g/dL" =
      [{ test_name := "HB ESTIMATION", test_value := "10.5",
         bio_reference_range := "12.0-15.0", test_unit := "g/dL",
         lab_test_out_of_range := true }] := by decide

/-- Claim C10: `extract_lab_tests` is total (the Lean embedding returns for
every input), every `test_value` it produces has the numeric shape
`\d+\.?\d*` captured by group 1, and consequently `float(value)` succeeds on
it — the value-parse-failure branch of `is_value_out_of_range` is
unreachable for values produced with the current catalog. -/
theorem C10_values_numeric (text : String) (r : LabResult)
    (hr : r ∈ extract_lab_tests text) :
    DecShape r.test_value.data ∧ (pyFloat r.test_value).isSome = true := by
  obtain ⟨t, ht, hmk⟩ := List.mem_filterMap.mp hr
  obtain ⟨m, hm, _, hvalue, _, _⟩ := mkResult_fields hmk
  obtain ⟨w, hw, hshape⟩ := searchFrom_g1Set (grpValue_mem_catalog ht) hm
  have hv2 : r.test_value = String.mk w := by
    rw [hvalue, hw]
    rfl
  constructor
  · rw [hv2]
    exact hshape
  · rw [hv2]
    exact pyFloat_of_shape hshape

theorem C10_values_numeric_witness :
    DecShape ("10.5" : String).data ∧ (pyFloat "10.5").isSome = true := by
  have h := C10_values_numeric "HB ESTIMATION: 10.5 g/dL"
    { test_name := "HB ESTIMATION", test_value := "10.5",
      bio_reference_range := "12.0-15.0", test_unit := "g/dL",
      lab_test_out_of_range := true } (by decide)
  exact h

/-- Claim C8: whenever the decode step fails (a raised exception, or
`imdecode` returning `None` so that preprocessing raises) or the OCR
invocation raises, `extract_text_from_image` aborts the request with a
single `HTTPException(500, "Error processing image: …")` carrying the
human-readable cause, and returns no partial text. -/
theorem C8_failure_processing_error
    (imdecode : List ℕ → PyResult (Option Img)) (cvtColorNoneMsg : String)
    (ocr : GrayImg → PyResult String) (image_data : List ℕ)
    (h : (∃ m, imdecode image_data = .exn m) ∨ imdecode image_data = .ok none ∨
      (∃ img m, imdecode image_data = .ok (some img)
        ∧ ocr (preprocess_image img) = .exn m)) :
    ∃ m, extract_text_from_image imdecode cvtColorNoneMsg ocr image_data =
        .error ⟨500, "Error processing image: " ++ m⟩
      ∧ ∀ text, extract_text_from_image imdecode cvtColorNoneMsg ocr image_data ≠
          .ok text := by
  have herr : ∃ m, extract_text_from_image imdecode cvtColorNoneMsg ocr image_data =
      .error ⟨500, "Error processing image: " ++ m⟩ := by
    rcases h with ⟨m, hm⟩ | hm | ⟨img, m, him, hocr⟩
    · exact ⟨m, by simp only [extract_text_from_image, hm]⟩
    · exact ⟨cvtColorNoneMsg, by simp only [extract_text_from_image, hm]⟩
    · exact ⟨m, by simp only [extract_text_from_image, him, hocr]⟩
  obtain ⟨m, hm⟩ := herr
  refine ⟨m, hm, fun text ht => ?_⟩
  rw [hm] at ht
  exact Except.noConfusion ht

theorem C8_failure_processing_error_witness :
    ((∃ m, (fun _ : List ℕ => (PyResult.exn "boom" : PyResult (Option Img))) [] = .exn m)
      ∨ (fun _ : List ℕ => (PyResult.exn "boom" : PyResult (Option Img))) [] = .ok none
      ∨ (∃ img m, (fun _ : List ℕ => (PyResult.exn "boom" : PyResult (Option Img))) [] =
            .ok (some img)
          ∧ (fun _ : GrayImg => (PyResult.ok "" : PyResult String)) (preprocess_image img) =
            .exn m))
    ∧ ∃ m, extract_text_from_image
        (fun _ => (PyResult.exn "boom" : PyResult (Option Img))) "cv2 error"
        (fun _ => (PyResult.ok "" : PyResult String)) [] =
          .error ⟨500, "Error processing image: " ++ m⟩
      ∧ ∀ text, extract_text_from_image
          (fun _ => (PyResult.exn "boom" : PyResult (Option Img))) "cv2 error"
          (fun _ => (PyResult.ok "" : PyResult String)) [] ≠ .ok text :=
  ⟨Or.inl ⟨"boom", rfl⟩,
   C8_failure_processing_error (fun _ => .exn "boom") "cv2 error" (fun _ => .ok "") []
     (Or.inl ⟨"boom", rfl⟩)⟩

/-- Claim C9: on a 3-channel colour image, `preprocess_image` returns a
single-channel image (by type) of the same spatial dimensions whose every
pixel is 255 minus the inverted-Otsu-thresholded pixel (the `seed := 150`
argument being ignored by the Otsu flag); equivalently each output pixel is
255 where the grayscale value exceeds the Otsu threshold and 0 elsewhere, so
every output pixel is 0 or 255 and the dark-on-light polarity is restored. -/
theorem C9_preprocess_binary (image : Img) :
    preprocess_image image =
      ((cv2_threshold_binary_inv_otsu (cv2_cvtColor_BGR2GRAY image) 150 255).2).map
        (fun row => row.map (fun p => 255 - p))
    ∧ preprocess_image image =
      (cv2_cvtColor_BGR2GRAY image).map (fun row => row.map (fun g =>
        if otsuThreshold (cv2_cvtColor_BGR2GRAY image).flatten < g then 255 else 0))
    ∧ (preprocess_image image).map List.length = image.map List.length
    ∧ ∀ row ∈ preprocess_image image, ∀ p ∈ row, p = 0 ∨ p = 255 := by
  have hfun : (fun p : ℕ =>
        255 - (if otsuThreshold (cv2_cvtColor_BGR2GRAY image).flatten < p then 0 else 255))
      = (fun p : ℕ =>
        if otsuThreshold (cv2_cvtColor_BGR2GRAY image).flatten < p then 255 else 0) := by
    funext p
    split <;> rfl
  have hpol : preprocess_image image =
      (cv2_cvtColor_BGR2GRAY image).map (fun row => row.map (fun g =>
        if otsuThreshold (cv2_cvtColor_BGR2GRAY image).flatten < g then 255 else 0)) := by
    show ((cv2_cvtColor_BGR2GRAY image).map (fun row => row.map (fun p =>
        if otsuThreshold (cv2_cvtColor_BGR2GRAY image).flatten < p then 0 else 255))).map
        (fun row => row.map (fun p => 255 - p)) = _
    simp only [List.map_map, Function.comp_def]
    simp only [hfun]
  refine ⟨rfl, hpol, ?_, ?_⟩
  · rw [hpol]
    simp [cv2_cvtColor_BGR2GRAY, List.map_map, Function.comp_def, List.length_map]
  · intro row hrow p hp
    rw [hpol] at hrow
    obtain ⟨row₀, _, rfl⟩ := List.mem_map.mp hrow
    obtain ⟨p₀, _, rfl⟩ := List.mem_map.mp hp
    split
    · exact Or.inr rfl
    · exact Or.inl rfl

theorem C9_preprocess_binary_witness :
    (preprocess_image [[(0, 0, 0), (255, 255, 255)]]).map List.length =
      ([[(0, 0, 0), (255, 255, 255)]] : Img).map List.length :=
  (C9_preprocess_binary [[(0, 0, 0), (255, 255, 255)]]).2.2.1

/-! ## Concrete evaluations of the embedded functions

Sanity checks of the embedding against the behaviour of the source on the
spec's example inputs (the `\n` case checks matching across the flattened
multi-line OCR blob). -/

example : is_value_out_of_range "13.0" "12.0-15.0" = false := by decide
example : is_value_out_of_range "12.0" "12.0-15.0" = false := by decide
example : is_value_out_of_range "15.0" "12.0-15.0" = false := by decide
example : is_value_out_of_range "15.01" "12.0-15.0" = true := by decide
example : is_value_out_of_range "13.0" "1-2-3" = false := by decide
example : is_value_out_of_range "-1" "12.0-15.0" = true := by decide
example : pyFloat "10." = some ⟨false, 10, 0⟩ := by decide
example : pyFloat ".5" = some ⟨false, 5, 1⟩ := by decide
example : pyFloat "." = none := by decide
example : pyFloat "" = none := by decide
example : pyFloat "+3" = some ⟨false, 3, 0⟩ := by decide

example :
    (extract_lab_tests "PCV (PACKED CELL VOLUME) = 40 %").map
      (fun r => (r.test_value, r.lab_test_out_of_range)) = [("40", false)] := by decide

example :
    (extract_lab_tests "WBC COUNT 5000 /cmm").map (fun r => (r.test_value, r.test_unit)) =
      [("5000", "/cmm")] := by decide

example :
    (extract_lab_tests "PLATELET COUNT: 2.0 lakhs/cmm\nHB ESTIMATION: 13.0 g/dL").map
      (fun r => r.test_name) = ["HB ESTIMATION", "PLATELET COUNT"] := by decide

example :
    (extract_lab_tests "hb estimation = 13.0 G/DL").map (fun r => (r.test_value, r.test_unit)) =
      [("13.0", "g/dL")] := by decide

example : extract_lab_tests "no lab data here" = [] := by decide

end LabAnalyzer
